import Mathlib

/-!
Verification of the fairseq2 core: the checkpointable sequential data-producer
(`count_data_source`) and the SentencePiece model loader / processor
(`sp_model_loader`, `sp_processor` from
`src/fairseq2/native/data/text/sentencepiece/sp_processor.cc`).

The producer's class layout and constructor come from
`src/fairseq2/native/data/count_data_source.h`; the bodies of its four
virtual methods live in a translation unit that is not part of the shown
sources, so those bodies are modelled from the spec (each such definition is
marked `Modelled from the spec:`).  The SentencePiece engine
(`SentencePieceProcessor`) is an external library; the small slice of its
behaviour that the claims depend on (compilation-time derivation of the
reserved ids, `PieceToId`, `IdToPiece`) is likewise modelled from the spec.
-/

namespace Fairseq2

/-! ## Counting producer

`count_data_source` holds an immutable `start_` and a mutable `counter_`,
both `std::int64_t`.  The spec describes the stream as infinite and strictly
increasing, so the integers are modelled as unbounded `Int`. -/

structure count_data_source where
  start : Int
  counter : Int
  deriving DecidableEq, Repr

/-- The constructor from the header: `count_data_source(start) : start_{start}, counter_{start}`. -/
def count_data_source.make (s : Int) : count_data_source :=
  ⟨s, s⟩

/-- Modelled from the spec: the body of `count_data_source::next` is not in the
shown sources; per the spec it "always succeeds (infinite stream), returns the
current counter, then increments it". -/
def count_data_source.next (s : count_data_source) : Int × count_data_source :=
  (s.counter, ⟨s.start, s.counter + 1⟩)

/-- Modelled from the spec: the body of `count_data_source::reset` is not in the
shown sources; per the spec it "sets counter back to start". -/
def count_data_source.reset (s : count_data_source) : count_data_source :=
  ⟨s.start, s.start⟩

/-- Modelled from the spec: the body of `count_data_source::record_position` is
not in the shown sources; per the spec it "writes the counter only" to the
append-only tape. -/
def count_data_source.record_position (s : count_data_source) (t : List Int) : List Int :=
  t ++ [s.counter]

/-- Modelled from the spec: the body of `count_data_source::reload_position` is
not in the shown sources; per the spec it "reads the counter only, leaving
start untouched", consuming one value from the front of the tape; a
mismatched tape shape is a contract violation (`none`). -/
def count_data_source.reload_position (s : count_data_source) :
    List Int → Option (count_data_source × List Int)
  | [] => none
  | c :: rest => some (⟨s.start, c⟩, rest)

/-- Pull `k` records from a producer, returning the values in order together
with the final producer state. -/
def produce : count_data_source → Nat → List Int × count_data_source
  | s, 0 => ([], s)
  | s, k + 1 =>
    let r := s.next
    let rest := produce r.2 k
    (r.1 :: rest.1, rest.2)

/-- The four operations of the sequential-producer interface, as abstract
events acting on a producer state (`record` does not mutate the producer;
`reload` carries the tape it reads from). -/
inductive producer_op where
  | next
  | reset
  | record
  | reload (t : List Int)

def apply_op (s : count_data_source) : producer_op → count_data_source
  | .next => s.next.2
  | .reset => s.reset
  | .record => s
  | .reload t =>
    match s.reload_position t with
    | some r => r.1
    | none => s

def run_ops (s : count_data_source) (ops : List producer_op) : count_data_source :=
  ops.foldl apply_op s

lemma produce_eq (k : Nat) : ∀ a c : Int,
    produce ⟨a, c⟩ k = ((List.range k).map (fun i : Nat => c + (i : Int)), ⟨a, c + k⟩) := by
  induction k with
  | zero => intro a c; simp [produce]
  | succ k ih =>
    intro a c
    rw [produce]
    simp only [count_data_source.next, ih a (c + 1), List.range_succ_eq_map,
      List.map_cons, List.map_map, Prod.mk.injEq, List.cons.injEq,
      count_data_source.mk.injEq, Nat.cast_zero, true_and]
    refine ⟨⟨by ring, ?_⟩, by push_cast; ring⟩
    apply List.map_congr_left
    intro i _
    simp only [Function.comp_apply]
    push_cast
    ring

lemma apply_op_start (s : count_data_source) (o : producer_op) :
    (apply_op s o).start = s.start := by
  cases o with
  | next => rfl
  | reset => rfl
  | record => rfl
  | reload t =>
    cases t with
    | nil => rfl
    | cons c rest => rfl

lemma run_ops_start (ops : List producer_op) : ∀ s : count_data_source,
    (run_ops s ops).start = s.start := by
  induction ops with
  | nil => intro s; rfl
  | cons o ops ih =>
    intro s
    show (run_ops (apply_op s o) ops).start = s.start
    rw [ih, apply_op_start]

/-- C2: a counting producer started at `n` and advanced `k` times, whose
position is recorded to a tape, then a fresh producer started at `n` that
reloads the position from that tape and is advanced `m` more times, yields
exactly the same value sequence as one uninterrupted producer started at `n`
and advanced `k + m` times — nothing duplicated and nothing lost at the
checkpoint boundary. -/
theorem checkpoint_roundtrip (n : Int) (k m : Nat) :
    ∃ s₂ : count_data_source,
      (count_data_source.make n).reload_position
          ((produce (count_data_source.make n) k).2.record_position []) = some (s₂, []) ∧
      (produce (count_data_source.make n) k).1 ++ (produce s₂ m).1
        = (produce (count_data_source.make n) (k + m)).1 := by
  refine ⟨⟨n, n + k⟩, ?_, ?_⟩
  · rw [count_data_source.make, produce_eq]
    rfl
  · rw [count_data_source.make, produce_eq, produce_eq, produce_eq, List.range_add]
    simp only [List.map_append, List.map_map]
    congr 1
    apply List.map_congr_left
    intro i _
    simp [Function.comp]
    omega

/-- C7: `reset` on a producer in any state returns it to the state immediately
after construction — subsequent `next` calls yield `start, start+1, …` — and
it leaves the immutable `start` configuration unchanged. -/
theorem reset_restores (s : count_data_source) (k : Nat) :
    s.reset = count_data_source.make s.start ∧
    s.reset.start = s.start ∧
    (produce s.reset k).1 = (List.range k).map (fun i : Nat => s.start + (i : Int)) := by
  refine ⟨rfl, rfl, ?_⟩
  rw [count_data_source.reset, produce_eq]

/-- C8: `record_position` appends exactly the counter (one value, not the
start) to the tape; `reload_position` reads back exactly the counter,
restoring it while leaving `start` unchanged; and `start` never changes after
construction under any sequence of the four interface operations. -/
theorem record_reload_frame (s : count_data_source) (t : List Int) (c : Int)
    (rest : List Int) (n : Int) (ops : List producer_op) :
    s.record_position t = t ++ [s.counter] ∧
    s.reload_position (c :: rest) = some (⟨s.start, c⟩, rest) ∧
    (run_ops (count_data_source.make n) ops).start = n := by
  exact ⟨rfl, rfl, run_ops_start ops (count_data_source.make n)⟩

/-! ## SentencePiece model loader

`sp_model_loader` (in `sp_processor.cc`) mutates a `ModelProto`: an ordered
list of pieces, each a surface string with a type tag, plus the trainer-spec
`pad_piece` metadata field.  Only the fields the loader touches are
modelled. -/

inductive PieceType where
  | NORMAL
  | UNKNOWN
  | CONTROL
  | USER_DEFINED
  | BYTE
  | UNUSED
  deriving DecidableEq, Repr

structure SentencePiece where
  piece : String
  type : PieceType
  deriving DecidableEq, Repr

structure ModelProto where
  pieces : List SentencePiece
  pad_piece : String
  deriving DecidableEq, Repr

/-- `sp_model_loader::add_piece`: appends a new piece with the given surface
string and type `CONTROL` at the end of the piece list. -/
def add_piece (p : ModelProto) (s : String) : ModelProto :=
  { p with pieces := p.pieces ++ [⟨s, PieceType.CONTROL⟩] }

/-- `RepeatedPtrField::SwapElements(i + 1, i)`: swap the adjacent elements at
positions `i` and `i + 1` (identity when fewer than two elements remain). -/
def swap_adjacent (l : List α) (i : Nat) : List α :=
  l.take i ++
    (match l.drop i with
     | a :: b :: rest => b :: a :: rest
     | r => r)

/-- The relocation loop body of `sp_model_loader::add_control_tokens`:
`for (int i = n; i > 0; --i) pieces->SwapElements(i, i - 1);` unrolled as a
recursion on the loop counter. -/
def swap_down : List α → Nat → List α
  | l, 0 => l
  | l, i + 1 => swap_down (swap_adjacent l i) i

/-- The full relocation loop, started at `pieces->size() - 1`. -/
def move_last_to_front (l : List α) : List α :=
  swap_down l (l.length - 1)

/-- One iteration of the loop in `sp_model_loader::add_control_tokens`: skip
empty tokens; on either padding spelling set the trainer-spec `pad_piece` to
the literal `"<pad>"` and append a `"<pad>"` control piece, relocating it to
index 0 when the legacy `"<pad>@0"` spelling was used; append any other token
as a control piece at the end. -/
def apply_control_token (p : ModelProto) (token : String) : ModelProto :=
  if token = "" then p
  else if token = "<pad>" ∨ token = "<pad>@0" then
    let p₁ := add_piece { p with pad_piece := "<pad>" } "<pad>"
    if token = "<pad>@0" then { p₁ with pieces := move_last_to_front p₁.pieces }
    else p₁
  else add_piece p token

/-- `sp_model_loader::add_control_tokens`: fold the loop body over the
configured control-token list in order. -/
def add_control_tokens (p : ModelProto) (tokens : List String) : ModelProto :=
  tokens.foldl apply_control_token p

lemma swap_adjacent_at (q : List α) (a b : α) (r : List α) :
    swap_adjacent (q ++ a :: b :: r) q.length = q ++ b :: a :: r := by
  have ht : (q ++ a :: b :: r).take q.length = q := List.take_left q _
  have hd : (q ++ a :: b :: r).drop q.length = a :: b :: r := List.drop_left q _
  rw [swap_adjacent, ht, hd]

lemma swap_down_move (i : Nat) : ∀ (q : List α) (x : α) (r : List α), q.length = i →
    swap_down (q ++ x :: r) i = x :: (q ++ r) := by
  induction i with
  | zero =>
    intro q x r hq
    rw [List.eq_nil_of_length_eq_zero hq]
    rfl
  | succ i ih =>
    intro q x r hq
    rcases q.eq_nil_or_concat' with rfl | ⟨q', a, rfl⟩
    · simp at hq
    · have hq' : q'.length = i := by
        simpa using hq
      rw [swap_down]
      have h₁ : q' ++ [a] ++ x :: r = q' ++ a :: x :: r := by
        simp
      rw [h₁, ← hq', swap_adjacent_at, hq', ih q' x (a :: r) hq']
      simp

lemma move_last_to_front_snoc (l : List α) (x : α) :
    move_last_to_front (l ++ [x]) = x :: l := by
  rw [move_last_to_front]
  have hlen : (l ++ [x]).length - 1 = l.length := by
    simp
  rw [hlen]
  simpa using swap_down_move l.length l x [] rfl

lemma apply_control_token_pad0 (p : ModelProto) :
    apply_control_token p "<pad>@0" =
      { pieces := ⟨"<pad>", PieceType.CONTROL⟩ :: p.pieces, pad_piece := "<pad>" } := by
  rw [apply_control_token, if_neg (by decide), if_pos (Or.inr rfl), if_pos rfl]
  simp [add_piece, move_last_to_front_snoc]

lemma apply_control_token_pad (p : ModelProto) :
    apply_control_token p "<pad>" =
      { pieces := p.pieces ++ [⟨"<pad>", PieceType.CONTROL⟩], pad_piece := "<pad>" } := by
  rw [apply_control_token, if_neg (by decide), if_pos (Or.inl rfl), if_neg (by decide)]
  rfl

lemma apply_control_token_other (p : ModelProto) (t : String)
    (h0 : t ≠ "") (h1 : ¬(t = "<pad>" ∨ t = "<pad>@0")) :
    apply_control_token p t = add_piece p t := by
  rw [apply_control_token, if_neg h0, if_neg h1]

lemma apply_control_token_append (p : ModelProto) (t : String) (h : t ≠ "<pad>@0") :
    ∃ suffix : List SentencePiece,
      (apply_control_token p t).pieces = p.pieces ++ suffix := by
  by_cases h0 : t = ""
  · exact ⟨[], by rw [h0, apply_control_token, if_pos rfl, List.append_nil]⟩
  by_cases h1 : t = "<pad>"
  · exact ⟨[⟨"<pad>", PieceType.CONTROL⟩], by rw [h1, apply_control_token_pad]⟩
  · exact ⟨[⟨t, PieceType.CONTROL⟩],
      by rw [apply_control_token_other p t h0 (by simp [h1, h])]; rfl⟩

lemma add_control_tokens_append (ts : List String) (h : "<pad>@0" ∉ ts) :
    ∀ p : ModelProto, ∃ suffix : List SentencePiece,
      (add_control_tokens p ts).pieces = p.pieces ++ suffix := by
  induction ts with
  | nil => exact fun p => ⟨[], by simp [add_control_tokens]⟩
  | cons t ts ih =>
    intro p
    have ht : t ≠ "<pad>@0" := by
      intro he
      exact h (he ▸ List.mem_cons_self t ts)
    have hts : "<pad>@0" ∉ ts := fun hm => h (List.mem_cons_of_mem t hm)
    obtain ⟨s₁, hs₁⟩ := apply_control_token_append p t ht
    obtain ⟨s₂, hs₂⟩ := ih hts (apply_control_token p t)
    exact ⟨s₁ ++ s₂, by
      rw [add_control_tokens, List.foldl_cons, ← add_control_tokens, hs₂, hs₁,
        List.append_assoc]⟩

def pad_piece_count (l : List SentencePiece) : Nat :=
  l.countP (fun sp => sp.piece == "<pad>")

def pad_marker_count (ts : List String) : Nat :=
  ts.countP (fun t => t == "<pad>" || t == "<pad>@0")

lemma pad_piece_of_apply (p : ModelProto) (t : String) :
    (apply_control_token p t).pad_piece
      = if t = "<pad>" ∨ t = "<pad>@0" then "<pad>" else p.pad_piece := by
  by_cases h0 : t = ""
  · subst h0
    rw [apply_control_token, if_pos rfl, if_neg (by decide)]
  by_cases h : t = "<pad>" ∨ t = "<pad>@0"
  · rcases h with rfl | rfl
    · rw [apply_control_token_pad, if_pos (Or.inl rfl)]
    · rw [apply_control_token_pad0, if_pos (Or.inr rfl)]
  · rw [apply_control_token_other p t h0 h, if_neg h]
    rfl

lemma pad_piece_count_apply (p : ModelProto) (t : String) :
    pad_piece_count (apply_control_token p t).pieces
      = pad_piece_count p.pieces + (if t = "<pad>" ∨ t = "<pad>@0" then 1 else 0) := by
  by_cases h0 : t = ""
  · subst h0
    rw [apply_control_token, if_pos rfl, if_neg (by decide)]
    rfl
  by_cases h : t = "<pad>" ∨ t = "<pad>@0"
  · rcases h with rfl | rfl
    · rw [apply_control_token_pad, if_pos (Or.inl rfl)]
      simp [pad_piece_count, List.countP_append, List.countP_cons]
    · rw [apply_control_token_pad0, if_pos (Or.inr rfl)]
      simp [pad_piece_count, List.countP_cons]
  · rw [apply_control_token_other p t h0 h, if_neg h]
    have h1 : t ≠ "<pad>" := fun he => h (Or.inl he)
    simp [pad_piece_count, add_piece, List.countP_append, List.countP_cons, h1]

lemma pad_piece_count_fold (ts : List String) : ∀ p : ModelProto,
    pad_piece_count (add_control_tokens p ts).pieces
      = pad_piece_count p.pieces + pad_marker_count ts := by
  induction ts with
  | nil =>
    intro p
    simp [add_control_tokens, pad_marker_count]
  | cons t ts ih =>
    intro p
    rw [add_control_tokens, List.foldl_cons, ← add_control_tokens,
      ih (apply_control_token p t), pad_piece_count_apply]
    simp only [pad_marker_count, List.countP_cons]
    by_cases h : t = "<pad>" ∨ t = "<pad>@0"
    · have hb : (t == "<pad>" || t == "<pad>@0") = true := by
        rcases h with rfl | rfl <;> simp
      rw [if_pos h, hb]
      simp
      omega
    · have h1 : t ≠ "<pad>" := fun he => h (Or.inl he)
      have h2 : t ≠ "<pad>@0" := fun he => h (Or.inr he)
      have hb : (t == "<pad>" || t == "<pad>@0") = false := by
        simp [h1, h2]
      rw [if_neg h, hb]
      simp

lemma add_control_tokens_pad_piece_stable (ts : List String) :
    ∀ p : ModelProto, p.pad_piece = "<pad>" →
      (add_control_tokens p ts).pad_piece = "<pad>" := by
  induction ts with
  | nil => exact fun p hp => hp
  | cons t ts ih =>
    intro p hp
    rw [add_control_tokens, List.foldl_cons, ← add_control_tokens]
    apply ih
    rw [pad_piece_of_apply]
    by_cases h : t = "<pad>" ∨ t = "<pad>@0"
    · rw [if_pos h]
    · rw [if_neg h]
      exact hp

lemma marker_sets_pad_piece (ts : List String) : ∀ p : ModelProto,
    (∃ t ∈ ts, t = "<pad>" ∨ t = "<pad>@0") →
      (add_control_tokens p ts).pad_piece = "<pad>" := by
  induction ts with
  | nil =>
    rintro p ⟨t, ht, -⟩
    exact absurd ht (List.not_mem_nil t)
  | cons u ts ih =>
    rintro p ⟨t, ht, hmt⟩
    rw [add_control_tokens, List.foldl_cons, ← add_control_tokens]
    by_cases hu : u = "<pad>" ∨ u = "<pad>@0"
    · apply add_control_tokens_pad_piece_stable
      rw [pad_piece_of_apply, if_pos hu]
    · rcases List.mem_cons.mp ht with rfl | htl
      · exact absurd hmt hu
      · exact ih (apply_control_token p u) ⟨t, htl, hmt⟩

/-- C1 (counterexample): the claim quantifies over every control-token
configuration containing `"<pad>@0"`; with the configuration
`["<pad>@0", "<pad>@0"]` the single pre-existing piece of the model ends at
index 2, not at index 1, so it does not sit "exactly one higher than
before". -/
theorem legacy_pad_shift_counterexample :
    "<pad>@0" ∈ ["<pad>@0", "<pad>@0"] ∧
    (add_control_tokens ⟨[⟨"a", PieceType.NORMAL⟩], "<pad>"⟩
        ["<pad>@0", "<pad>@0"]).pieces[1]? ≠ some ⟨"a", PieceType.NORMAL⟩ ∧
    (add_control_tokens ⟨[⟨"a", PieceType.NORMAL⟩], "<pad>"⟩
        ["<pad>@0", "<pad>@0"]).pieces[2]? = some ⟨"a", PieceType.NORMAL⟩ := by
  decide

/-- C1 (amended: the configuration contains the legacy form `"<pad>@0"`
exactly once): after the loader applies the control tokens, the pad piece is
at index 0 and every pre-existing piece occupies an index exactly one higher
than before, preserving relative order; and the relocation loop — a sequence
of adjacent pairwise swaps from the end of the list down to index 0 — has
exactly the net effect of moving the just-appended last element to the
front. -/
theorem legacy_pad_relocation (pp : String) (ps : List SentencePiece)
    (ts₁ ts₂ : List String) (h₁ : "<pad>@0" ∉ ts₁) (h₂ : "<pad>@0" ∉ ts₂) :
    (add_control_tokens ⟨ps, pp⟩ (ts₁ ++ "<pad>@0" :: ts₂)).pieces[0]?
        = some ⟨"<pad>", PieceType.CONTROL⟩ ∧
    (∀ i : Nat, i < ps.length →
      (add_control_tokens ⟨ps, pp⟩ (ts₁ ++ "<pad>@0" :: ts₂)).pieces[i + 1]?
        = ps[i]?) ∧
    (∀ (l : List SentencePiece) (x : SentencePiece),
      move_last_to_front (l ++ [x]) = x :: l) := by
  obtain ⟨s₁, hs₁⟩ := add_control_tokens_append ts₁ h₁ ⟨ps, pp⟩
  obtain ⟨s₂, hs₂⟩ := add_control_tokens_append ts₂ h₂
    (apply_control_token (add_control_tokens ⟨ps, pp⟩ ts₁) "<pad>@0")
  have hsplit : add_control_tokens ⟨ps, pp⟩ (ts₁ ++ "<pad>@0" :: ts₂)
      = add_control_tokens
          (apply_control_token (add_control_tokens ⟨ps, pp⟩ ts₁) "<pad>@0") ts₂ := by
    rw [add_control_tokens, List.foldl_append, List.foldl_cons]
    rfl
  have key : (add_control_tokens ⟨ps, pp⟩ (ts₁ ++ "<pad>@0" :: ts₂)).pieces
      = ⟨"<pad>", PieceType.CONTROL⟩ :: ((ps ++ s₁) ++ s₂) := by
    rw [hsplit, hs₂, apply_control_token_pad0]
    dsimp only
    rw [hs₁, List.cons_append]
  refine ⟨?_, ?_, fun l x => move_last_to_front_snoc l x⟩
  · rw [key, List.getElem?_cons_zero]
  · intro i hi
    have hlt : i < (ps ++ s₁).length := by
      simp
      omega
    rw [key, List.getElem?_cons_succ, List.getElem?_append_left hlt,
      List.getElem?_append_left hi]

/-- C1 witness: the spec's example — a model with 3 pre-existing pieces and
control-token list `["<pad>@0"]` yields the pad piece at index 0 and the
original three pieces at indices 1–3 in their original order; the swap loop
on a two-element list moves the last element to the front. -/
theorem legacy_pad_relocation_witness :
    (add_control_tokens ⟨[⟨"x", PieceType.NORMAL⟩, ⟨"y", PieceType.NORMAL⟩,
        ⟨"z", PieceType.NORMAL⟩], "<pad>"⟩ ["<pad>@0"]).pieces[0]?
        = some ⟨"<pad>", PieceType.CONTROL⟩ ∧
    (add_control_tokens ⟨[⟨"x", PieceType.NORMAL⟩, ⟨"y", PieceType.NORMAL⟩,
        ⟨"z", PieceType.NORMAL⟩], "<pad>"⟩ ["<pad>@0"]).pieces[1]?
        = some ⟨"x", PieceType.NORMAL⟩ ∧
    (add_control_tokens ⟨[⟨"x", PieceType.NORMAL⟩, ⟨"y", PieceType.NORMAL⟩,
        ⟨"z", PieceType.NORMAL⟩], "<pad>"⟩ ["<pad>@0"]).pieces[2]?
        = some ⟨"y", PieceType.NORMAL⟩ ∧
    (add_control_tokens ⟨[⟨"x", PieceType.NORMAL⟩, ⟨"y", PieceType.NORMAL⟩,
        ⟨"z", PieceType.NORMAL⟩], "<pad>"⟩ ["<pad>@0"]).pieces[3]?
        = some ⟨"z", PieceType.NORMAL⟩ ∧
    move_last_to_front
        ([⟨"x", PieceType.NORMAL⟩, ⟨"<pad>", PieceType.CONTROL⟩] : List SentencePiece)
      = [⟨"<pad>", PieceType.CONTROL⟩, ⟨"x", PieceType.NORMAL⟩] := by
  have h := legacy_pad_relocation "<pad>"
    [⟨"x", PieceType.NORMAL⟩, ⟨"y", PieceType.NORMAL⟩, ⟨"z", PieceType.NORMAL⟩]
    [] [] (by decide) (by decide)
  exact ⟨h.1, (h.2.1 0 (by decide)).trans (by decide),
    (h.2.1 1 (by decide)).trans (by decide), (h.2.1 2 (by decide)).trans (by decide),
    h.2.2 [⟨"x", PieceType.NORMAL⟩] ⟨"<pad>", PieceType.CONTROL⟩⟩

/-- C3 (counterexample): applying the legacy marker `"<pad>@0"` does not set
the pad-piece metadata to the token string `"<pad>@0"` and does not append
the piece `"<pad>@0"`; the loader writes the literal `"<pad>"` in both
places. -/
theorem pad_literal_counterexample :
    (apply_control_token ⟨[], "x"⟩ "<pad>@0").pad_piece ≠ "<pad>@0" ∧
    ⟨"<pad>@0", PieceType.CONTROL⟩ ∉ (apply_control_token ⟨[], "x"⟩ "<pad>@0").pieces ∧
    (apply_control_token ⟨[], "x"⟩ "<pad>@0").pad_piece = "<pad>" ∧
    (apply_control_token ⟨[], "x"⟩ "<pad>@0").pieces
      = [⟨"<pad>", PieceType.CONTROL⟩] := by
  decide

/-- C3 (amended): for each padding-marker token (plain `"<pad>"` or legacy
`"<pad>@0"`), the loader sets the model's designated pad-piece metadata to
the canonical literal `"<pad>"` and appends `"<pad>"` as a new control-typed
piece at the current end of the piece list; when the legacy form was used the
appended piece is then relocated to index 0. -/
theorem pad_marker_effect (p : ModelProto) (t : String)
    (h : t = "<pad>" ∨ t = "<pad>@0") :
    (apply_control_token p t).pad_piece = "<pad>" ∧
    (t = "<pad>" →
      (apply_control_token p t).pieces = p.pieces ++ [⟨"<pad>", PieceType.CONTROL⟩]) ∧
    (t = "<pad>@0" →
      (apply_control_token p t).pieces = ⟨"<pad>", PieceType.CONTROL⟩ :: p.pieces) := by
  rcases h with rfl | rfl
  · rw [apply_control_token_pad]
    exact ⟨rfl, fun _ => rfl, fun he => absurd he (by decide)⟩
  · rw [apply_control_token_pad0]
    exact ⟨rfl, fun he => absurd he (by decide), fun _ => rfl⟩

/-- C3 witness: the plain marker on an empty model sets the metadata to
`"<pad>"` and appends the `"<pad>"` control piece at the end. -/
theorem pad_marker_effect_witness :
    (apply_control_token ⟨[], "x"⟩ "<pad>").pad_piece = "<pad>" ∧
    (apply_control_token ⟨[], "x"⟩ "<pad>").pieces
      = [] ++ [⟨"<pad>", PieceType.CONTROL⟩] := by
  exact ⟨(pad_marker_effect ⟨[], "x"⟩ "<pad>" (Or.inl rfl)).1,
    (pad_marker_effect ⟨[], "x"⟩ "<pad>" (Or.inl rfl)).2.1 rfl⟩

/-- C10: padding markers are not deduplicated — applying a control-token list
adds one `"<pad>"` piece per padding-marker occurrence (on top of however
many `"<pad>"` pieces the model already had), and whenever the list contains
at least one padding marker the model's pad-piece metadata ends up (re)set to
`"<pad>"`. -/
theorem pad_marker_not_deduplicated (p : ModelProto) (ts : List String) :
    pad_piece_count (add_control_tokens p ts).pieces
      = pad_piece_count p.pieces + pad_marker_count ts ∧
    ((∃ t ∈ ts, t = "<pad>" ∨ t = "<pad>@0") →
      (add_control_tokens p ts).pad_piece = "<pad>") := by
  exact ⟨pad_piece_count_fold ts p, marker_sets_pad_piece ts p⟩

/-- C10 witness: a control-token list with the padding marker twice yields
two `"<pad>"` pieces on a model that had none, and the metadata is set. -/
theorem pad_marker_not_deduplicated_witness :
    pad_piece_count (add_control_tokens ⟨[], "x"⟩ ["<pad>", "<pad>"]).pieces = 2 ∧
    (add_control_tokens ⟨[], "x"⟩ ["<pad>", "<pad>"]).pad_piece = "<pad>" := by
  constructor
  · exact (pad_marker_not_deduplicated ⟨[], "x"⟩ ["<pad>", "<pad>"]).1.trans (by decide)
  · exact (pad_marker_not_deduplicated ⟨[], "x"⟩ ["<pad>", "<pad>"]).2
      ⟨"<pad>", by decide, Or.inl rfl⟩

/-! ## Load errors

`sp_model_loader::load_proto` inspects the status returned by the opaque
`sentencepiece::io::LoadModelProto` call and maps it to an exception;
`sp_model_loader::load_processor` does the same for the engine's compile
(`SentencePieceProcessor::Load`).  The status is a code plus a message; the
codes beyond the two the loader distinguishes are represented by a few
stand-ins for "any other failure". -/

inductive StatusCode where
  | kOk
  | kNotFound
  | kPermissionDenied
  | kInvalidArgument
  | kInternal
  | kUnavailable
  deriving DecidableEq, Repr

structure SPStatus where
  code : StatusCode
  message : String
  deriving DecidableEq, Repr

/-- `util::Status::ok()`: the status carries the success code. -/
def SPStatus.ok (st : SPStatus) : Bool :=
  st.code == StatusCode.kOk

/-- The error taxonomy of the spec, as the exceptions thrown by
`sp_processor.cc` (`std::system_error` with `no_such_file_or_directory` /
`permission_denied`, `std::runtime_error` carrying the engine message, and
`std::domain_error` for the range check). -/
inductive sp_error where
  | NotFound
  | PermissionDenied
  | ParseError (message : String)
  | ConfigError (message : String)
  | RangeError (message : String)
  deriving DecidableEq, Repr

/-- `sp_model_loader::load_proto`, as a function of the status produced by the
opaque `LoadModelProto` byte-stream read: success is passed through, `kNotFound`
becomes `NotFound`, `kPermissionDenied` becomes `PermissionDenied`, and any
other failure becomes `ParseError` carrying the status message. -/
def load_proto (st : SPStatus) : Except sp_error Unit :=
  if st.ok then Except.ok ()
  else if st.code = StatusCode.kNotFound then Except.error sp_error.NotFound
  else if st.code = StatusCode.kPermissionDenied then Except.error sp_error.PermissionDenied
  else Except.error (sp_error.ParseError st.message)

/-- `sp_model_loader::load_processor`, as a function of the status produced by
the engine's compile step: any failure is raised as `ParseError` carrying the
engine message. -/
def load_processor (st : SPStatus) : Except sp_error Unit :=
  if st.ok then Except.ok ()
  else Except.error (sp_error.ParseError st.message)

/-- C4: loading the raw model fails with `NotFound` exactly when the resource
is reported absent, with `PermissionDenied` exactly when access is reported
refused, and with `ParseError` exactly on any other failure; the terminal
compile step fails with `ParseError` exactly when the engine reports failure;
in every case the error is returned to the caller and success is returned
exactly on an ok status (nothing retried, nothing swallowed). -/
theorem load_error_taxonomy (st : SPStatus) :
    (load_proto st = Except.error sp_error.NotFound ↔ st.code = StatusCode.kNotFound) ∧
    (load_proto st = Except.error sp_error.PermissionDenied ↔
      st.code = StatusCode.kPermissionDenied) ∧
    ((∃ m, load_proto st = Except.error (sp_error.ParseError m)) ↔
      (st.code ≠ StatusCode.kOk ∧ st.code ≠ StatusCode.kNotFound ∧
        st.code ≠ StatusCode.kPermissionDenied)) ∧
    (load_proto st = Except.ok () ↔ st.code = StatusCode.kOk) ∧
    ((∃ m, load_processor st = Except.error (sp_error.ParseError m)) ↔
      st.code ≠ StatusCode.kOk) ∧
    (load_processor st = Except.ok () ↔ st.code = StatusCode.kOk) := by
  obtain ⟨c, m⟩ := st
  cases c <;> simp [load_proto, load_processor, SPStatus.ok]

/-! ## Compiled engine and processor -/

/-- The compiled segmentation engine: the immutable piece table (index =
vocabulary id) and the four reserved ids the processor caches. -/
structure SPEngine where
  pieces : List String
  unk_id : Int
  bos_id : Int
  eos_id : Int
  pad_id : Int
  deriving DecidableEq, Repr

/-- The index of the first piece equal to `s`, or `-1` when absent. -/
def piece_lookup (l : List String) (s : String) : Int :=
  match l.findIdx? (· == s) with
  | some i => (i : Int)
  | none => -1

/-- Modelled from the spec: the engine's compile step
(`SentencePieceProcessor::Load`, external to this repository) freezes the
piece list and derives the reserved ids by looking the designated reserved
piece strings up in the piece table, `-1` when absent — in particular a model
whose designated pad piece does not occur in the table compiles to an engine
with a negative pad id. -/
def compile_engine (p : ModelProto) : SPEngine :=
  { pieces := p.pieces.map SentencePiece.piece
    unk_id := piece_lookup (p.pieces.map SentencePiece.piece) "<unk>"
    bos_id := piece_lookup (p.pieces.map SentencePiece.piece) "<s>"
    eos_id := piece_lookup (p.pieces.map SentencePiece.piece) "</s>"
    pad_id := piece_lookup (p.pieces.map SentencePiece.piece) p.pad_piece }

/-- Modelled from the spec: the engine's `PieceToId` "returns the vocabulary
id, or the reserved unknown-token id if the token is absent". -/
def SPEngine.PieceToId (e : SPEngine) (tok : String) : Int :=
  match e.pieces.findIdx? (· == tok) with
  | some i => (i : Int)
  | none => e.unk_id

/-- Modelled from the spec: the engine's `IdToPiece` is the piece table
lookup (the piece list is "indexed by vocabulary id"). -/
def SPEngine.IdToPiece (e : SPEngine) (i : Nat) : String :=
  e.pieces.getD i ""

/-- The long-lived processor: the owned engine plus the cached ids and
vocabulary size (`sp_processor`'s data members). -/
structure sp_processor where
  native : SPEngine
  unk_idx : Int
  bos_idx : Int
  eos_idx : Int
  pad_idx : Int
  vocab_size : Nat
  deriving DecidableEq, Repr

/-- The `sp_processor` constructor: cache the engine's reserved ids and piece
count, failing with the pad-id-missing `ConfigError` when the engine's pad id
is negative. -/
def sp_processor.construct (e : SPEngine) : Except sp_error sp_processor :=
  if e.pad_id < 0 then
    Except.error (sp_error.ConfigError "The model has no padding token specified.")
  else
    Except.ok
      { native := e, unk_idx := e.unk_id, bos_idx := e.bos_id, eos_idx := e.eos_id,
        pad_idx := e.pad_id, vocab_size := e.pieces.length }

/-- `static_cast<std::size_t>(idx)` for a 64-bit `std::size_t`: the value of
`idx` modulo `2^64`. -/
def cast_size_t (i : Int) : Nat :=
  (i % (2 : Int) ^ 64).toNat

/-- `sp_processor::token_to_index`: pass the token to the engine's
`PieceToId`; no failure path. -/
def sp_processor.token_to_index (pr : sp_processor) (tok : String) : Except sp_error Int :=
  Except.ok (pr.native.PieceToId tok)

/-- `sp_processor::index_to_token`: throw `RangeError` when the size_t cast of
the index is at least `vocab_size`, otherwise return the engine's piece for
it. -/
def sp_processor.index_to_token (pr : sp_processor) (idx : Int) : Except sp_error String :=
  if pr.vocab_size ≤ cast_size_t idx then
    Except.error (sp_error.RangeError "The specified index is out of range.")
  else
    Except.ok (pr.native.IdToPiece idx.toNat)

lemma findIdx?_not_mem (l : List String) (s : String) (h : s ∉ l) :
    l.findIdx? (· == s) = none := by
  induction l with
  | nil => rfl
  | cons a l ih =>
    have ha : (a == s) = false :=
      beq_eq_false_iff_ne.mpr (fun he => h (he ▸ List.mem_cons_self a l))
    have hm : s ∉ l := fun hm => h (List.mem_cons_of_mem a hm)
    simp [List.findIdx?_cons, ha, ih hm]

lemma findIdx?_mem (l : List String) (s : String) (h : s ∈ l) :
    ∃ i : Nat, l.findIdx? (· == s) = some i ∧ i < l.length ∧ l[i]? = some s := by
  induction l with
  | nil => exact absurd h (List.not_mem_nil s)
  | cons a l ih =>
    by_cases ha : a = s
    · exact ⟨0, by simp [List.findIdx?_cons, ha], by simp, by simp [ha]⟩
    · have hm : s ∈ l := by
        rcases List.mem_cons.mp h with he | hm
        · exact absurd he.symm ha
        · exact hm
      obtain ⟨i, hf, hlt, hg⟩ := ih hm
      have hab : (a == s) = false := beq_eq_false_iff_ne.mpr ha
      refine ⟨i + 1, by simp [List.findIdx?_cons, hab, hf], by simp; omega, ?_⟩
      simpa using hg

lemma construct_ok_vocab (proto : ModelProto) (pr : sp_processor)
    (hc : sp_processor.construct (compile_engine proto) = Except.ok pr) :
    pr.vocab_size = proto.pieces.length ∧ 1 ≤ pr.vocab_size := by
  by_cases h : (compile_engine proto).pad_id < 0
  · rw [sp_processor.construct, if_pos h] at hc
    exact absurd hc (by simp)
  · rw [sp_processor.construct, if_neg h] at hc
    simp only [Except.ok.injEq] at hc
    subst hc
    refine ⟨by simp [compile_engine], ?_⟩
    cases hps : proto.pieces with
    | nil =>
      exfalso
      apply h
      show piece_lookup (proto.pieces.map SentencePiece.piece) proto.pad_piece < 0
      rw [hps]
      show (-1 : Int) < 0
      norm_num
    | cons a l =>
      simp [compile_engine, hps]

/-- A one-piece model that designates its `"<pad>"` piece as pad, used to
instantiate the processor theorems on concrete inputs. -/
def example_proto : ModelProto :=
  ⟨[⟨"<pad>", PieceType.CONTROL⟩], "<pad>"⟩

def example_engine : SPEngine :=
  compile_engine example_proto

def example_processor : sp_processor :=
  ⟨example_engine, -1, -1, -1, 0, 1⟩

/-- C6: processor construction fails with `ConfigError` if and only if the
compiled engine's pad id is negative; a model whose designated pad piece does
not occur in its piece table (no padding-token configuration at all) fails
construction with the pad-id-missing error; and on a non-negative pad id
construction succeeds, caching the engine together with its unknown, begin,
end and pad ids and the vocabulary size. -/
theorem construct_pad_guard (e : SPEngine) (proto : ModelProto) :
    ((∃ m, sp_processor.construct e = Except.error (sp_error.ConfigError m)) ↔
      e.pad_id < 0) ∧
    (∀ pr : sp_processor, sp_processor.construct e = Except.ok pr →
      pr.native = e ∧ pr.unk_idx = e.unk_id ∧ pr.bos_idx = e.bos_id ∧
      pr.eos_idx = e.eos_id ∧ pr.pad_idx = e.pad_id ∧
      pr.vocab_size = e.pieces.length) ∧
    (proto.pad_piece ∉ proto.pieces.map SentencePiece.piece →
      sp_processor.construct (compile_engine proto)
        = Except.error (sp_error.ConfigError "The model has no padding token specified.")) := by
  refine ⟨?_, ?_, ?_⟩
  · by_cases h : e.pad_id < 0
    · simp [sp_processor.construct, h]
    · simp [sp_processor.construct, h]
  · intro pr hpr
    by_cases h : e.pad_id < 0
    · rw [sp_processor.construct, if_pos h] at hpr
      exact absurd hpr (by simp)
    · rw [sp_processor.construct, if_neg h] at hpr
      simp only [Except.ok.injEq] at hpr
      subst hpr
      exact ⟨rfl, rfl, rfl, rfl, rfl, rfl⟩
  · intro h
    have hpad : (compile_engine proto).pad_id = -1 := by
      show piece_lookup (proto.pieces.map SentencePiece.piece) proto.pad_piece = -1
      rw [piece_lookup, findIdx?_not_mem _ _ h]
    rw [sp_processor.construct, hpad, if_pos (by norm_num)]

/-- C6 witness: a model whose only piece is `"a"` (so its designated
`"<pad>"` is absent) fails construction with the pad-id-missing error, and
the one-piece pad model constructs successfully with the cached engine and
vocabulary size. -/
theorem construct_pad_guard_witness :
    sp_processor.construct (compile_engine ⟨[⟨"a", PieceType.NORMAL⟩], "<pad>"⟩)
      = Except.error (sp_error.ConfigError "The model has no padding token specified.") ∧
    example_processor.native = example_engine ∧
    example_processor.vocab_size = example_engine.pieces.length := by
  refine ⟨?_, ?_, ?_⟩
  · exact (construct_pad_guard (compile_engine ⟨[⟨"a", PieceType.NORMAL⟩], "<pad>"⟩)
      ⟨[⟨"a", PieceType.NORMAL⟩], "<pad>"⟩).2.2 (by decide)
  · exact ((construct_pad_guard example_engine example_proto).2.1
      example_processor rfl).1
  · exact ((construct_pad_guard example_engine example_proto).2.1
      example_processor rfl).2.2.2.2.2

/-- C5: for a constructed processor (whose piece count fits in an `int`),
`index_to_token` fails with `RangeError` exactly when the `int32` id is
outside `[0, vocab_size)` — a negative id wraps to a huge `size_t` and is
caught by the same bound check — and in particular it fails at `vocab_size`
and succeeds at `vocab_size - 1`. -/
theorem index_to_token_range (proto : ModelProto) (pr : sp_processor) (idx : Int)
    (hc : sp_processor.construct (compile_engine proto) = Except.ok pr)
    (hlo : -(2 : Int) ^ 31 ≤ idx) (hhi : idx < (2 : Int) ^ 31)
    (hv : pr.vocab_size < 2 ^ 31) :
    ((∃ m, pr.index_to_token idx = Except.error (sp_error.RangeError m)) ↔
      (idx < 0 ∨ (pr.vocab_size : Int) ≤ idx)) ∧
    (∃ m, pr.index_to_token (pr.vocab_size : Int)
      = Except.error (sp_error.RangeError m)) ∧
    (∃ tok, pr.index_to_token ((pr.vocab_size : Int) - 1) = Except.ok tok) := by
  obtain ⟨-, hge1⟩ := construct_ok_vocab proto pr hc
  have hiff : ∀ j : Int,
      (∃ m, pr.index_to_token j = Except.error (sp_error.RangeError m)) ↔
        pr.vocab_size ≤ cast_size_t j := by
    intro j
    rw [sp_processor.index_to_token]
    by_cases hj : pr.vocab_size ≤ cast_size_t j
    · simp [hj]
    · simp [hj]
  norm_num at hlo hhi hv
  refine ⟨?_, ?_, ?_⟩
  · rw [hiff idx, cast_size_t]
    norm_num
    omega
  · rw [hiff, cast_size_t]
    norm_num
    omega
  · rw [sp_processor.index_to_token,
      if_neg (show ¬(pr.vocab_size ≤ cast_size_t ((pr.vocab_size : Int) - 1)) by
        rw [cast_size_t]
        norm_num
        omega)]
    exact ⟨_, rfl⟩

/-- C5 witness: on the constructed one-piece pad model (`vocab_size = 1`),
looking up id 0 does not fail, id `vocab_size` fails with `RangeError`, and
id `vocab_size - 1` succeeds. -/
theorem index_to_token_range_witness :
    ((∃ m, example_processor.index_to_token 0
        = Except.error (sp_error.RangeError m)) ↔
      ((0 : Int) < 0 ∨ ((example_processor.vocab_size : Nat) : Int) ≤ 0)) ∧
    (∃ m, example_processor.index_to_token ((example_processor.vocab_size : Nat) : Int)
      = Except.error (sp_error.RangeError m)) ∧
    (∃ tok, example_processor.index_to_token
        (((example_processor.vocab_size : Nat) : Int) - 1) = Except.ok tok) := by
  exact index_to_token_range example_proto example_processor 0 rfl
    (by norm_num) (by norm_num) (by norm_num [example_processor])

/-- C9: `token_to_index` never fails — it returns the vocabulary id of the
token when the token is in the piece table, and the engine's reserved
unknown id when it is absent. -/
theorem token_to_index_total (pr : sp_processor) (tok : String) :
    (∃ i, pr.token_to_index tok = Except.ok i) ∧
    (tok ∉ pr.native.pieces →
      pr.token_to_index tok = Except.ok pr.native.unk_id) ∧
    (tok ∈ pr.native.pieces →
      ∃ i : Nat, pr.token_to_index tok = Except.ok (i : Int) ∧
        pr.native.pieces[i]? = some tok) := by
  refine ⟨⟨_, rfl⟩, ?_, ?_⟩
  · intro h
    rw [sp_processor.token_to_index, SPEngine.PieceToId, findIdx?_not_mem _ _ h]
  · intro h
    obtain ⟨i, hf, -, hg⟩ := findIdx?_mem _ _ h
    exact ⟨i, by rw [sp_processor.token_to_index, SPEngine.PieceToId, hf], hg⟩

/-- C9 witness: on the one-piece pad model, an unseen token maps to the
reserved unknown id without failing, and the known token maps to its
vocabulary id 0. -/
theorem token_to_index_total_witness :
    example_processor.token_to_index "zz" = Except.ok (-1) ∧
    example_processor.token_to_index "<pad>" = Except.ok 0 := by
  constructor
  · exact (token_to_index_total example_processor "zz").2.1 (by decide)
  · obtain ⟨i, hok, hg⟩ :=
      (token_to_index_total example_processor "<pad>").2.2 (by decide)
    have hi : i = 0 := by
      cases i with
      | zero => rfl
      | succ n =>
        simp [example_processor, example_engine, example_proto, compile_engine] at hg
    subst hi
    exact hok

end Fairseq2
